import Mathlib

/-!
# Verification of the GON parser (GON-rs)

A shallow embedding of the GON configuration-format parser from `src/lib.rs`,
`src/parser.rs` and `src/from.rs`.

The Rust parser works on a mutable single-lookahead cursor (`Peekable<Chars>`).
We embed it as functions on the remaining input, a `List Char`; every parsing
function returns its result together with the remaining input, and an error
result also carries the remaining input (the Rust cursor keeps its position
when an `Err` is returned, which is observable in `Gon::parse`'s fallback
path, so the embedding must track it).

The mutually recursive object/array/value grammar is embedded with an explicit
fuel parameter; `0` fuel yields `GonError.InvalidGon`.  All concrete top-level
parses in this development are run with fuel `2 * length + 8`, which is ample
for the inputs considered (every such theorem evaluates the parser concretely,
so insufficient fuel could not go unnoticed).
-/

/-- Errors of the parser, from `GonError` in `src/lib.rs`. -/
inductive GonError where
  | InvalidGon
  | StringExpected
  | EndOfFileExpected
  | QuoteExpected
  | ClosingBraceExpected
  | ClosingBracketExpected
  | ValueExpected
  | DuplicateKey (key : String)
  | UnexpectedEscapeCharacter (c : Char)
  | EscapeCharacterExpected
  | InvalidHexEscape
  | InvalidUtf8
  | HexEscapesNotSupported
  | Custom (msg : String)
  deriving DecidableEq, Repr

/-- The parsed tree, `enum Gon` in `src/lib.rs`.  The Rust `HashMap` is
embedded as an association list in insertion order; the parser only ever looks
up and inserts keys, so no other map operation is needed. -/
inductive Gon where
  | Object (map : List (String × Gon))
  | Array (arr : List Gon)
  | Value (val : String)

/-- `is_whitespace` from `src/parser.rs`: space, tab, newline, carriage return. -/
def is_whitespace (c : Char) : Bool :=
  c = ' ' ∨ c = '\t' ∨ c = '\n' ∨ c = '\r'

/-- `c` is one of the six structural characters at which a bare token stops. -/
def is_structural (c : Char) : Bool :=
  c = '{' ∨ c = '}' ∨ c = '[' ∨ c = ']' ∨ c = ':' ∨ c = ','

/-- `Parser::skip_whitespace`: consume the longest whitespace prefix.
Note that the source contains no handling of `#` comments here (or anywhere
else in `src/parser.rs`); this function skips whitespace only. -/
def skip_whitespace : List Char → List Char
  | [] => []
  | c :: rest => if is_whitespace c then skip_whitespace rest else c :: rest

/-- `Parser::skip_whitespace_and_token`: skip whitespace, then one optional
occurrence of `c`, then whitespace again; the Bool records whether `c` was
consumed. -/
def skip_whitespace_and_token (c : Char) (l : List Char) : Bool × List Char :=
  match skip_whitespace l with
  | c1 :: rest =>
    if c1 = c then (true, skip_whitespace rest) else (false, c1 :: rest)
  | [] => (false, [])

/-- The decoding table of `Parser::parse_escape` (the match on the character
returned by `self.next()`). -/
def escape_char (c : Char) : Except GonError Char :=
  match c with
  | '\"' => .ok '\"'
  | '\\' => .ok '\\'
  | '/' => .ok '/'
  | 'b' => .ok '\x08'
  | 'f' => .ok '\x0C'
  | 'n' => .ok '\n'
  | 'r' => .ok '\r'
  | 't' => .ok '\t'
  | 'u' => .error .HexEscapesNotSupported
  | c => .error (.UnexpectedEscapeCharacter c)

/-- `Parser::parse_escape`: called after a backslash was consumed; reads one
character (`self.next()`) and decodes it via the table above. -/
def parse_escape : List Char → Except GonError Char × List Char
  | [] => (.error .EscapeCharacterExpected, [])
  | c :: rest => (escape_char c, rest)

/-- The quoted-string loop of `Parser::parse_string` (the `Some('"')` branch):
consume characters until an unescaped closing quote, decoding escapes.  The
two-deep pattern on a backslash followed by `e` is the inlined call
`self.parse_escape()` (which consumes `e`); a backslash at end of input is
`parse_escape`'s `None` case. -/
def parse_quoted : List Char → Except GonError (List Char) × List Char
  | [] => (.error .QuoteExpected, [])
  | ['\\'] => (.error .EscapeCharacterExpected, [])
  | '\\' :: e :: rest =>
    match escape_char e with
    | .error err => (.error err, rest)
    | .ok c =>
      match parse_quoted rest with
      | (.ok s, rest1) => (.ok (c :: s), rest1)
      | (.error err, rest1) => (.error err, rest1)
  | '\"' :: rest => (.ok [], rest)
  | c :: rest =>
    match parse_quoted rest with
    | (.ok s, rest1) => (.ok (c :: s), rest1)
    | (.error err, rest1) => (.error err, rest1)

/-- The bare-token loop of `Parser::parse_string` (the `Some(_)` branch):
read characters until whitespace, a structural character or end of input,
none of which is consumed.  On a backslash the escape is parsed (and may
fail) but its decoded character is *discarded*: the source runs
`self.parse_escape()?;` without using the result (`src/parser.rs` 81-84). -/
def parse_bare : List Char → Except GonError (List Char) × List Char
  | [] => (.ok [], [])
  | ['\\'] => (.error .EscapeCharacterExpected, [])
  | '\\' :: e :: rest =>
    match escape_char e with
    | .error err => (.error err, rest)
    | .ok _ => parse_bare rest
  | c :: rest =>
    if is_structural c then (.ok [], c :: rest)
    else if is_whitespace c then (.ok [], c :: rest)
    else
      match parse_bare rest with
      | (.ok s, rest1) => (.ok (c :: s), rest1)
      | (.error err, rest1) => (.error err, rest1)

/-- `Parser::parse_string`: a quoted string if the lookahead is `"`, a bare
token if it is any other character, `StringExpected` at end of input. -/
def parse_string (l : List Char) : Except GonError String × List Char :=
  match l with
  | [] => (.error .StringExpected, [])
  | '\"' :: rest =>
    match parse_quoted rest with
    | (.ok s, rest1) => (.ok (String.mk s), rest1)
    | (.error e, rest1) => (.error e, rest1)
  | c :: rest =>
    match parse_bare (c :: rest) with
    | (.ok s, rest1) => (.ok (String.mk s), rest1)
    | (.error e, rest1) => (.error e, rest1)

mutual

/-- `Parser::parse_object`, with the local `let mut map` lifted to the
accumulator argument `map` (callers pass `[]`).  While the lookahead is
neither `}` nor end of input: parse a key, skip an optional `:`, parse a
value, reject a key already present in the map (`DuplicateKey`), insert, skip
an optional `,`.  Mutually recursive with `parse_val` through an explicit
fuel parameter (the Rust recursion has no fuel; fuel `0` yields
`InvalidGon` and is never reached at the fuel used by `Gon.parse`). -/
def parse_object : Nat → List Char → List (String × Gon) →
    Except GonError Gon × List Char
  | 0, l, _ => (.error .InvalidGon, l)
  | _ + 1, '}' :: rest, map => (.ok (.Object map), '}' :: rest)
  | _ + 1, [], map => (.ok (.Object map), [])
  | fuel + 1, l, map =>
    match parse_string l with
    | (.error e, l1) => (.error e, l1)
    | (.ok key, l1) =>
      match parse_val fuel (skip_whitespace_and_token ':' l1).2 with
      | (.error e, l2) => (.error e, l2)
      | (.ok val, l2) =>
        if (map.find? (fun kv => kv.1 = key)).isSome then
          (.error (.DuplicateKey key), l2)
        else
          parse_object fuel (skip_whitespace_and_token ',' l2).2
            (map ++ [(key, val)])

/-- `Parser::parse_val`: dispatch on the lookahead.  `{`: consume it, skip
whitespace, parse an object, require a closing `}` (consumed by `self.next()`
whatever it is).  `[`: consume it, run the array loop.  Any other character:
a bare/quoted string wrapped as a `Value`.  End of input: `ValueExpected`. -/
def parse_val : Nat → List Char → Except GonError Gon × List Char
  | 0, l => (.error .InvalidGon, l)
  | fuel + 1, '{' :: rest =>
    (match parse_object fuel (skip_whitespace rest) [] with
     | (.error e, l1) => (.error e, l1)
     | (.ok val, l1) =>
       match l1 with
       | '}' :: rest1 => (.ok val, rest1)
       | _ :: rest1 => (.error .ClosingBraceExpected, rest1)
       | [] => (.error .ClosingBraceExpected, []))
  | fuel + 1, '[' :: rest => parse_array fuel (skip_whitespace rest) []
  | _ + 1, c :: rest =>
    (match parse_string (c :: rest) with
     | (.ok s, l1) => (.ok (.Value s), l1)
     | (.error e, l1) => (.error e, l1))
  | _ + 1, [] => (.error .ValueExpected, [])

/-- The array loop inside `Parser::parse_val`'s `Some('[')` branch, with the
local `let mut arr` lifted to the accumulator `arr`: `]` consumes it and
finishes, end of input is `ClosingBracketExpected`, anything else parses a
value, pushes it and skips an optional `,`. -/
def parse_array : Nat → List Char → List Gon → Except GonError Gon × List Char
  | 0, l, _ => (.error .InvalidGon, l)
  | _ + 1, ']' :: rest, arr => (.ok (.Array arr), rest)
  | _ + 1, [], _ => (.error .ClosingBracketExpected, [])
  | fuel + 1, l, arr =>
    match parse_val fuel l with
    | (.error e, l1) => (.error e, l1)
    | (.ok v, l1) =>
      parse_array fuel (skip_whitespace_and_token ',' l1).2 (arr ++ [v])
end

/-- `Gon::parse` from `src/lib.rs`, parametrised by the fuel given to the
recursive grammar.  The steps mirror the source: skip leading whitespace; if
the lookahead is `{` or `[` parse a single value; otherwise try to parse an
object, and if that fails with `ValueExpected`, restart with a fresh parser
over the original text, skip whitespace and parse a single value (its failure
becomes `InvalidGon`).  Afterwards skip whitespace and require end of input,
else `EndOfFileExpected`.

One subtlety of the source is kept faithfully: in the fallback arm the fresh
parser `p` *shadows* the outer parser only inside that arm, so the trailing
whitespace-skip and end-of-input check after the `match` read the *outer*
parser — whose position is where `parse_object` stopped when it returned
`ValueExpected` — not the fresh parser.  Hence the pair produced by the
fallback arm below keeps `p1`, the outer parser's remaining input, and
discards the fresh parser's. -/
def gon_parse_step (s : List Char) (fuel : Nat) :
    Except GonError Gon × List Char :=
  match skip_whitespace s with
  | '{' :: rest => parse_val fuel ('{' :: rest)
  | '[' :: rest => parse_val fuel ('[' :: rest)
  | p0 =>
    match parse_object fuel p0 [] with
    | (.error .ValueExpected, p1) =>
      match parse_val fuel (skip_whitespace s) with
      | (.ok gon, _) => (.ok gon, p1)
      | (.error _, _) => (.error .InvalidGon, p1)
    | r => r

def Gon.parseFuel (s : List Char) (fuel : Nat) : Except GonError Gon :=
  match gon_parse_step s fuel with
  | (.error e, _) => .error e
  | (.ok gon, p) =>
    if (skip_whitespace p).isEmpty then .ok gon else .error .EndOfFileExpected

/-- `Gon::parse`: run the parser on a string, with fuel that is ample for the
inputs considered in this development. -/
def Gon.parse (s : String) : Except GonError Gon :=
  Gon.parseFuel s.data (2 * s.length + 8)

/-- Errors of the conversion layer, from `FromGonError` in `src/from.rs`.
The Rust boxed dynamic errors are embedded as strings. -/
inductive FromGonError where
  | Gon (e : GonError)
  | ParseInt (msg : String)
  | ParseFloat (msg : String)
  | Parse (msg : String)
  | Missing (field : String)
  | ExpectedValue
  | ExpectedArray
  | ExpectedObject
  | InvalidVariant (name : String)
  | InvalidLength (expected found : Nat)
  | IndexOutOfBounds (index : Nat)
  | UnexpectedValue
  | UnexpectedArray
  | UnexpectedObject
  | UnexpectedVariant (name : String)
  | Other (msg : String)
  | Unknown
  deriving DecidableEq, Repr

/-- `impl FromGon for String` in `src/from.rs`: a `Value` yields its string,
anything else is `ExpectedValue`. -/
def fromGon_string : Gon → Except FromGonError String
  | .Value val => .ok val
  | .Object _ => .error .ExpectedValue
  | .Array _ => .error .ExpectedValue

/-- `impl<T: FromGon, const N: usize> FromGon for [T; N]` in `src/from.rs`,
with the element conversion `T::from_gon` passed as the function `f` and the
const generic `N` as an argument: a non-array is `ExpectedArray`; an array of
the wrong length is `InvalidLength { expected: N, found: arr.len() }`;
otherwise every element is converted left to right, stopping at the first
element error (the Rust `collect::<Result<ArrayVec<T, N>, _>>`). -/
def fromGon_array {α : Type} (f : Gon → Except FromGonError α) (N : Nat) :
    Gon → Except FromGonError (List α)
  | .Object _ => .error .ExpectedArray
  | .Value _ => .error .ExpectedArray
  | .Array arr =>
    if arr.length ≠ N then .error (.InvalidLength N arr.length)
    else arr.mapM f

theorem escape_char_cases (c : Char) :
    (∃ d, escape_char c = .ok d) ∨
    escape_char c = .error .HexEscapesNotSupported ∨
    escape_char c = .error (.UnexpectedEscapeCharacter c) := by
  unfold escape_char
  split
  all_goals first
    | exact Or.inl ⟨_, rfl⟩
    | exact Or.inr (Or.inl rfl)
    | exact Or.inr (Or.inr rfl)

theorem escape_char_error_shape (c : Char) (er : GonError)
    (h : escape_char c = .error er) :
    er = .HexEscapesNotSupported ∨ er = .UnexpectedEscapeCharacter c := by
  unfold escape_char at h
  split at h <;> simp_all

/-- The errors `parse_quoted` can produce: a missing closing quote or an
escape error. -/
theorem parse_quoted_error_shape (l : List Char) :
    ∀ er r, parse_quoted l = (.error er, r) →
      er = .QuoteExpected ∨ er = .EscapeCharacterExpected ∨
      er = .HexEscapesNotSupported ∨ ∃ c, er = .UnexpectedEscapeCharacter c := by
  induction l using parse_quoted.induct with
  | case1 =>
    intro er r h
    simp only [parse_quoted, Prod.mk.injEq, Except.error.injEq] at h
    exact Or.inl h.1.symm
  | case2 =>
    intro er r h
    simp only [parse_quoted, Prod.mk.injEq, Except.error.injEq] at h
    exact Or.inr (Or.inl h.1.symm)
  | case3 e rest err hesc =>
    intro er r h
    simp only [parse_quoted, hesc, Prod.mk.injEq, Except.error.injEq] at h
    rcases escape_char_error_shape e err hesc with h1 | h1 <;>
      rcases h with ⟨h2, h3⟩ <;> subst h2 <;> subst h1
    · exact Or.inr (Or.inr (Or.inl rfl))
    · exact Or.inr (Or.inr (Or.inr ⟨e, rfl⟩))
  | case4 e rest c hesc s rest1 hrec ih =>
    intro er r h
    simp [parse_quoted, hesc, hrec] at h
  | case5 e rest c hesc err rest1 hrec ih =>
    intro er r h
    simp only [parse_quoted, hesc, hrec, Prod.mk.injEq, Except.error.injEq] at h
    rcases h with ⟨h1, h2⟩
    subst h1
    exact ih err rest1 hrec
  | case6 rest =>
    intro er r h
    simp [parse_quoted] at h
  | case7 c rest hne1 hne2 hne3 s rest1 hrec ih =>
    intro er r h
    simp [parse_quoted, hrec] at h
  | case8 c rest hne1 hne2 hne3 err rest1 hrec ih =>
    intro er r h
    simp only [parse_quoted, hrec, Prod.mk.injEq, Except.error.injEq] at h
    rcases h with ⟨h1, h2⟩
    subst h1
    exact ih err rest1 hrec

/-- The errors `parse_bare` can produce: escape errors only. -/
theorem parse_bare_error_shape (l : List Char) :
    ∀ er r, parse_bare l = (.error er, r) →
      er = .EscapeCharacterExpected ∨
      er = .HexEscapesNotSupported ∨ ∃ c, er = .UnexpectedEscapeCharacter c := by
  induction l using parse_bare.induct with
  | case1 =>
    intro er r h
    simp [parse_bare] at h
  | case2 =>
    intro er r h
    simp only [parse_bare, Prod.mk.injEq, Except.error.injEq] at h
    exact Or.inl h.1.symm
  | case3 e rest err hesc =>
    intro er r h
    rw [parse_bare.eq_3, hesc] at h
    simp only [Prod.mk.injEq, Except.error.injEq] at h
    rcases escape_char_error_shape e err hesc with h1 | h1 <;>
      rcases h with ⟨h2, h3⟩ <;> subst h2 <;> subst h1
    · exact Or.inr (Or.inl rfl)
    · exact Or.inr (Or.inr ⟨e, rfl⟩)
  | case4 e rest c hesc ih =>
    intro er r h
    rw [parse_bare.eq_3, hesc] at h
    exact ih er r h
  | case5 c rest hne1 hne2 hstruct =>
    intro er r h
    rw [parse_bare.eq_4 c rest hne1 hne2, if_pos hstruct] at h
    simp at h
  | case6 c rest hne1 hne2 hstruct hws =>
    intro er r h
    rw [parse_bare.eq_4 c rest hne1 hne2, if_neg hstruct, if_pos hws] at h
    simp at h
  | case7 c rest hne1 hne2 hstruct hws s rest1 hrec ih =>
    intro er r h
    rw [parse_bare.eq_4 c rest hne1 hne2, if_neg hstruct, if_neg hws,
      hrec] at h
    simp at h
  | case8 c rest hne1 hne2 hstruct hws err rest1 hrec ih =>
    intro er r h
    rw [parse_bare.eq_4 c rest hne1 hne2, if_neg hstruct, if_neg hws,
      hrec] at h
    simp only [Prod.mk.injEq, Except.error.injEq] at h
    rcases h with ⟨h1, h2⟩
    subst h1
    exact ih err rest1 hrec

/-- The errors `parse_string` can produce: `StringExpected` (exactly at end
of input), a missing closing quote, or an escape error. -/
theorem parse_string_error_shape (l : List Char) :
    ∀ er r, parse_string l = (.error er, r) →
      er = .StringExpected ∨ er = .QuoteExpected ∨
      er = .EscapeCharacterExpected ∨
      er = .HexEscapesNotSupported ∨ ∃ c, er = .UnexpectedEscapeCharacter c := by
  intro er r h
  cases l with
  | nil =>
    simp only [parse_string, Prod.mk.injEq, Except.error.injEq] at h
    exact Or.inl h.1.symm
  | cons c rest =>
    by_cases hc : c = '\"'
    · subst hc
      simp only [parse_string] at h
      rcases hq : parse_quoted rest with ⟨res, r1⟩
      rw [hq] at h
      cases res with
      | ok s => simp at h
      | error e1 =>
        simp only [Prod.mk.injEq, Except.error.injEq] at h
        obtain ⟨h1, h2⟩ := h
        subst h1
        exact Or.inr (parse_quoted_error_shape rest e1 r1 hq)
    · simp only [parse_string, hc] at h
      rcases hb : parse_bare (c :: rest) with ⟨res, r1⟩
      rw [hb] at h
      cases res with
      | ok s => simp at h
      | error e1 =>
        simp only [Prod.mk.injEq, Except.error.injEq] at h
        obtain ⟨h1, h2⟩ := h
        subst h1
        exact Or.inr (Or.inr (parse_bare_error_shape (c :: rest) e1 r1 hb))

/-- `parse_string` never fails with `ValueExpected`. -/
theorem parse_string_no_valueExpected (l : List Char) (r : List Char)
    (h : parse_string l = (.error .ValueExpected, r)) : False := by
  rcases parse_string_error_shape l _ r h with h1 | h1 | h1 | h1 | ⟨c, h1⟩ <;>
    simp at h1

/-- A `ValueExpected` error is produced only by `parse_val`'s end-of-input
case, so whenever any of the three grammar functions returns it, the
remaining input it reports is empty: the cursor sits at end of input.  This
is what makes `Gon::parse`'s final end-of-input check vacuous on the fallback
path. -/
theorem value_expected_at_eoi (fuel : Nat) :
    (∀ l map p, parse_object fuel l map = (.error .ValueExpected, p) →
      p = []) ∧
    (∀ l p, parse_val fuel l = (.error .ValueExpected, p) → p = []) ∧
    (∀ l arr p, parse_array fuel l arr = (.error .ValueExpected, p) →
      p = []) := by
  induction fuel with
  | zero =>
    refine ⟨?_, ?_, ?_⟩
    · intro l map p h
      rw [parse_object.eq_1] at h
      simp at h
    · intro l p h
      rw [parse_val.eq_1] at h
      simp at h
    · intro l arr p h
      rw [parse_array.eq_1] at h
      simp at h
  | succ fuel ih =>
    obtain ⟨ihO, ihV, ihA⟩ := ih
    refine ⟨?_, ?_, ?_⟩
    · -- parse_object
      intro l map p h
      cases l with
      | nil => rw [parse_object.eq_3] at h; simp at h
      | cons c rest =>
        by_cases hc : c = '}'
        · subst hc; rw [parse_object.eq_2] at h; simp at h
        · rw [parse_object.eq_4 (c :: rest) map fuel
            (by intro rest1 heq; injection heq with ha _; exact hc ha)
            (by intro heq; cases heq)] at h
          split at h
          next e l1 hs =>
            simp only [Prod.mk.injEq, Except.error.injEq] at h
            obtain ⟨h1, h2⟩ := h
            subst h1
            exact absurd hs (fun hs => parse_string_no_valueExpected _ _ hs)
          next key l1 hs =>
            split at h
            next e l2 hv =>
              simp only [Prod.mk.injEq, Except.error.injEq] at h
              obtain ⟨h1, h2⟩ := h
              subst h1; subst h2
              exact ihV _ _ hv
            next val l2 hv =>
              split at h
              · simp at h
              · exact ihO _ _ _ h
    · -- parse_val
      intro l p h
      cases l with
      | nil =>
        rw [parse_val.eq_5] at h
        simp only [Prod.mk.injEq] at h
        exact h.2.symm
      | cons c rest =>
        by_cases hbrace : c = '{'
        · subst hbrace
          rw [parse_val.eq_2] at h
          split at h
          next e l1 ho =>
            simp only [Prod.mk.injEq, Except.error.injEq] at h
            obtain ⟨h1, h2⟩ := h
            subst h1; subst h2
            exact ihO _ _ _ ho
          next val l1 ho =>
            split at h <;> simp_all
        · by_cases hbrack : c = '['
          · subst hbrack
            rw [parse_val.eq_3] at h
            exact ihA _ _ _ h
          · rw [parse_val.eq_4 fuel c rest
              (fun heq => hbrace heq) (fun heq => hbrack heq)] at h
            split at h
            next s l1 hs => simp at h
            next e l1 hs =>
              simp only [Prod.mk.injEq, Except.error.injEq] at h
              obtain ⟨h1, h2⟩ := h
              subst h1
              exact absurd hs (fun hs => parse_string_no_valueExpected _ _ hs)
    · -- parse_array
      intro l arr p h
      cases l with
      | nil => rw [parse_array.eq_3] at h; simp at h
      | cons c rest =>
        by_cases hc : c = ']'
        · subst hc; rw [parse_array.eq_2] at h; simp at h
        · rw [parse_array.eq_4 (c :: rest) arr fuel
            (by intro rest1 heq; injection heq with ha _; exact hc ha)
            (by intro heq; cases heq)] at h
          split at h
          next e l1 hv =>
            simp only [Prod.mk.injEq, Except.error.injEq] at h
            obtain ⟨h1, h2⟩ := h
            subst h1; subst h2
            exact ihV _ _ hv
          next v l1 hv =>
            exact ihA _ _ _ h

/-- The lookahead test of `Gon::parse`: does the remaining input start with
`{` or `[`? -/
def head_open : List Char → Bool
  | '{' :: _ => true
  | '[' :: _ => true
  | _ => false

theorem gon_parse_step_open (s : List Char) (fuel : Nat)
    (hopen : head_open (skip_whitespace s) = true) :
    gon_parse_step s fuel = parse_val fuel (skip_whitespace s) := by
  unfold gon_parse_step
  split
  next rest hsw => rw [hsw]
  next rest hsw => rw [hsw]
  next p0 hne1 hne2 =>
    cases hsw : skip_whitespace s with
    | nil => rw [hsw] at hopen; simp [head_open] at hopen
    | cons c r =>
      by_cases hc : c = '\x7b'
      · subst hc; exact ((hne1 r hsw).elim)
      · by_cases hc2 : c = '['
        · subst hc2; exact ((hne2 r hsw).elim)
        · rw [hsw] at hopen
          simp [head_open, hc, hc2] at hopen

theorem gon_parse_step_not_open (s : List Char) (fuel : Nat)
    (hopen : head_open (skip_whitespace s) = false) :
    gon_parse_step s fuel =
      match parse_object fuel (skip_whitespace s) [] with
      | (.error .ValueExpected, p1) =>
        match parse_val fuel (skip_whitespace s) with
        | (.ok gon, _) => (.ok gon, p1)
        | (.error _, _) => (.error .InvalidGon, p1)
      | r => r := by
  unfold gon_parse_step
  split
  next rest hsw => rw [hsw] at hopen; simp [head_open] at hopen
  next rest hsw => rw [hsw] at hopen; simp [head_open] at hopen
  next p0 hne1 hne2 => rfl

/-- If the (whitespace-skipped) input starts with `{` or `[` and the direct
value parse succeeds, `Gon.parseFuel` applies the end-of-input check to what
that parse left unread. -/
theorem parseFuel_direct_path (s : List Char) (fuel : Nat) (g : Gon)
    (p : List Char) (hopen : head_open (skip_whitespace s) = true)
    (hval : parse_val fuel (skip_whitespace s) = (.ok g, p)) :
    Gon.parseFuel s fuel =
      if (skip_whitespace p).isEmpty then .ok g
      else .error .EndOfFileExpected := by
  unfold Gon.parseFuel
  rw [gon_parse_step_open s fuel hopen, hval]

/-- If the input does not start with `{`/`[` and the object attempt succeeds,
`Gon.parseFuel` applies the end-of-input check to what it left unread. -/
theorem parseFuel_object_path (s : List Char) (fuel : Nat) (g : Gon)
    (p : List Char) (hopen : head_open (skip_whitespace s) = false)
    (hobj : parse_object fuel (skip_whitespace s) [] = (.ok g, p)) :
    Gon.parseFuel s fuel =
      if (skip_whitespace p).isEmpty then .ok g
      else .error .EndOfFileExpected := by
  unfold Gon.parseFuel
  rw [gon_parse_step_not_open s fuel hopen, hobj]

/-- If the input does not start with `{`/`[` and the object attempt fails
with any error other than `ValueExpected`, that error is returned as-is. -/
theorem parseFuel_error_path (s : List Char) (fuel : Nat) (e : GonError)
    (p : List Char) (hopen : head_open (skip_whitespace s) = false)
    (hobj : parse_object fuel (skip_whitespace s) [] = (.error e, p))
    (hne : e ≠ .ValueExpected) :
    Gon.parseFuel s fuel = .error e := by
  unfold Gon.parseFuel
  rw [gon_parse_step_not_open s fuel hopen, hobj]
  cases e <;> simp_all

/-- If the input does not start with `{`/`[`, the object attempt fails with
`ValueExpected` and the restarted single-value parse succeeds, `Gon.parseFuel`
returns that value, *regardless of the input `q` the value parse left
unread*: the end-of-input check reads the outer parser, which
`value_expected_at_eoi` shows is at end of input. -/
theorem parseFuel_fallback_path (s : List Char) (fuel : Nat) (g : Gon)
    (p1 q : List Char) (hopen : head_open (skip_whitespace s) = false)
    (hobj : parse_object fuel (skip_whitespace s) []
      = (.error .ValueExpected, p1))
    (hval : parse_val fuel (skip_whitespace s) = (.ok g, q)) :
    Gon.parseFuel s fuel = .ok g := by
  have hp1 : p1 = [] := (value_expected_at_eoi fuel).1 _ _ _ hobj
  subst hp1
  unfold Gon.parseFuel
  rw [gon_parse_step_not_open s fuel hopen, hobj, hval]
  rfl

/-- `skip_whitespace` consumes an all-whitespace input entirely. -/
theorem skip_whitespace_all (l : List Char)
    (h : ∀ c ∈ l, is_whitespace c = true) : skip_whitespace l = [] := by
  induction l with
  | nil => rfl
  | cons c rest ih =>
    rw [skip_whitespace, if_pos (h c (List.mem_cons_self c rest))]
    exact ih (fun d hd => h d (List.mem_cons_of_mem c hd))

/-- A bare token stops, consuming nothing, at a structural or whitespace
character. -/
theorem parse_bare_stop (c : Char) (rest : List Char)
    (h : is_structural c = true ∨ is_whitespace c = true) :
    parse_bare (c :: rest) = (.ok [], c :: rest) := by
  have hc1 : (c = '\\' → rest = [] → False) := by
    intro hc _
    subst hc
    rcases h with h | h <;> simp [is_structural, is_whitespace] at h
  have hc2 : (∀ (e : Char) (r : List Char), c = '\\' → rest = e :: r →
      False) := by
    intro e r hc _
    subst hc
    rcases h with h | h <;> simp [is_structural, is_whitespace] at h
  rw [parse_bare.eq_4 c rest hc1 hc2]
  rcases h with h | h
  · rw [if_pos h]
  · by_cases hs : is_structural c = true
    · rw [if_pos hs]
    · rw [if_neg hs, if_pos h]

/-- C1: the spec's comment rule — wherever whitespace is skipped between
tokens, a `#` begins a comment that runs to the end of line and is discarded
— is absent from the code: `skip_whitespace` (the only between-token
skipper, `src/parser.rs` 116-120) leaves a `#` in place, and the spec's own
single-value fallback instead of the object `{b ↦ "13"}` required by the
spec and by the repository's `test::comments` (`src/lib.rs` 323-353). -/
theorem comment_handling_missing :
    skip_whitespace "# a comment\n13".data = "# a comment\n13".data ∧
    Gon.parse "b # a comment\n13" = .ok (.Value "b") :=
  ⟨rfl, rfl⟩

/-- C5: top-level ambiguity resolution on the spec's three examples:
`123.456` is a bare `Value`, `whirly_widgets 10` is a one-entry `Object`,
`[A B C]` is an `Array` of three `Value`s. -/
theorem top_level_disambiguation :
    Gon.parse "123.456" = .ok (.Value "123.456") ∧
    Gon.parse "whirly_widgets 10"
      = .ok (.Object [("whirly_widgets", .Value "10")]) ∧
    Gon.parse "[A B C]"
      = .ok (.Array [.Value "A", .Value "B", .Value "C"]) :=
  ⟨rfl, rfl, rfl⟩

/-- C10: an empty or all-whitespace input parses to the empty `Object`:
after skipping the input there is no `{`/`[` lookahead, the object attempt
returns immediately with an empty map, and the end-of-input check passes. -/
theorem whitespace_only_empty_object (s : String)
    (h : ∀ c ∈ s.data, is_whitespace c = true) :
    Gon.parse s = .ok (.Object []) := by
  have hsw : skip_whitespace s.data = [] := skip_whitespace_all s.data h
  have hfuel : 2 * s.length + 8 = (2 * s.length + 7) + 1 := rfl
  have hobj : parse_object (2 * s.length + 8) (skip_whitespace s.data) []
      = (.ok (.Object []), []) := by
    rw [hsw, hfuel, parse_object.eq_3]
  have := parseFuel_object_path s.data (2 * s.length + 8) (.Object []) []
    (by rw [hsw]; rfl) hobj
  unfold Gon.parse
  rw [this]
  rfl

/-- Witness for C10 at concrete all-whitespace and empty inputs. -/
theorem whitespace_only_empty_object_witness :
    Gon.parse " \t\n\r" = .ok (.Object []) ∧
    Gon.parse "" = .ok (.Object []) :=
  ⟨whitespace_only_empty_object " \t\n\r" (by decide),
   whitespace_only_empty_object "" (by decide)⟩

/-- C2 counterexample: the claim says the `ValueExpected` fallback fires only
when no key/value pair could even start; on `a b c` the object attempt parses
the complete pair `a ↦ b` and the key `c` before hitting `ValueExpected` at
end of input, and the fallback then runs and wins, returning `Value "a"` (the
prefix `a b` alone shows a pair can start — it parses as an object). -/
theorem fallback_after_started_pair :
    parse_object 18 "a b c".data [] = (.error .ValueExpected, []) ∧
    Gon.parse "a b" = .ok (.Object [("a", .Value "b")]) ∧
    Gon.parse "a b c" = .ok (.Value "a") :=
  ⟨rfl, rfl, rfl⟩

/-- C2 amended: at top level, when the input does not start with `{`/`[`,
the single-value fallback runs exactly when the object attempt fails with
`ValueExpected` (any other error propagates as-is, and on fallback success
that value is returned); but `ValueExpected` is raised whenever the cursor
reaches end of input where a value was expected — which can happen after
whole key/value pairs were parsed, e.g. on `a b c` — not only when no pair
could start. -/
theorem fallback_trigger_amended :
    (∀ (s : List Char) (fuel : Nat) (e : GonError) (p1 : List Char),
      head_open (skip_whitespace s) = false →
      parse_object fuel (skip_whitespace s) [] = (.error e, p1) →
      e ≠ .ValueExpected →
      Gon.parseFuel s fuel = .error e) ∧
    (∀ (s : List Char) (fuel : Nat) (g : Gon) (q p1 : List Char),
      head_open (skip_whitespace s) = false →
      parse_object fuel (skip_whitespace s) [] = (.error .ValueExpected, p1) →
      parse_val fuel (skip_whitespace s) = (.ok g, q) →
      Gon.parseFuel s fuel = .ok g) ∧
    parse_object 18 "a b c".data [] = (.error .ValueExpected, []) :=
  ⟨fun s fuel e p1 ho hobj hne => parseFuel_error_path s fuel e p1 ho hobj hne,
   fun s fuel g q p1 ho hobj hval =>
     parseFuel_fallback_path s fuel g p1 q ho hobj hval,
   rfl⟩

/-- Witness for C2's amended theorem: a non-`ValueExpected` error
(`ClosingBraceExpected` on `k {`) propagates; on `q r s` the fallback
returns `Value "q"`. -/
theorem fallback_trigger_amended_witness :
    Gon.parseFuel "k \x7b".data 14 = .error .ClosingBraceExpected ∧
    Gon.parseFuel "q r s".data 18 = .ok (.Value "q") :=
  ⟨fallback_trigger_amended.1 "k \x7b".data 14 .ClosingBraceExpected [] rfl rfl
     (by decide),
   fallback_trigger_amended.2.1 "q r s".data 18 (.Value "q") " r s".data []
     rfl rfl rfl⟩

/-- C3 counterexample: the claim says content left unread by the fallback
value parse counts as remaining content and must fail with
`EndOfFileExpected`; on `x y z` the fallback value parse consumes only `x`,
leaving ` y z`, yet the parse succeeds with `Value "x"`. -/
theorem trailing_content_after_fallback :
    parse_val 18 "x y z".data = (.ok (.Value "x"), " y z".data) ∧
    Gon.parse "x y z" = .ok (.Value "x") :=
  ⟨rfl, rfl⟩

/-- C3 amended: after the direct (`{`/`[`) path or the object path completes
successfully, `parse` skips trailing whitespace and fails with
`EndOfFileExpected` iff non-whitespace content remains; on the fallback path,
however, the end-of-input check inspects the first attempt's cursor — which
`ValueExpected` left at end of input — so a successful fallback always
passes the check and content left unread by the fallback value parse is
silently ignored. -/
theorem eof_check_per_path :
    (∀ (s : List Char) (fuel : Nat) (g : Gon) (p : List Char),
      head_open (skip_whitespace s) = true →
      parse_val fuel (skip_whitespace s) = (.ok g, p) →
      Gon.parseFuel s fuel =
        if (skip_whitespace p).isEmpty then .ok g
        else .error .EndOfFileExpected) ∧
    (∀ (s : List Char) (fuel : Nat) (g : Gon) (p : List Char),
      head_open (skip_whitespace s) = false →
      parse_object fuel (skip_whitespace s) [] = (.ok g, p) →
      Gon.parseFuel s fuel =
        if (skip_whitespace p).isEmpty then .ok g
        else .error .EndOfFileExpected) ∧
    (∀ (s : List Char) (fuel : Nat) (g : Gon) (q p1 : List Char),
      head_open (skip_whitespace s) = false →
      parse_object fuel (skip_whitespace s) [] = (.error .ValueExpected, p1) →
      parse_val fuel (skip_whitespace s) = (.ok g, q) →
      Gon.parseFuel s fuel = .ok g) :=
  ⟨fun s fuel g p ho hv => parseFuel_direct_path s fuel g p ho hv,
   fun s fuel g p ho hobj => parseFuel_object_path s fuel g p ho hobj,
   fun s fuel g q p1 ho hobj hval =>
     parseFuel_fallback_path s fuel g p1 q ho hobj hval⟩

/-- Witness for C3's amended theorem: `[A] junk` fails the end-of-input
check on the direct path, `a b}` fails it on the object path, and on `u v w`
the fallback succeeds while ignoring ` v w`. -/
theorem eof_check_per_path_witness :
    Gon.parseFuel "[A] junk".data 24 = .error .EndOfFileExpected ∧
    Gon.parseFuel "a b\x7d".data 16 = .error .EndOfFileExpected ∧
    Gon.parseFuel "u v w".data 18 = .ok (.Value "u") :=
  ⟨(eof_check_per_path.1 "[A] junk".data 24 (.Array [.Value "A"])
      " junk".data rfl rfl).trans rfl,
   (eof_check_per_path.2.1 "a b\x7d".data 16 (.Object [("a", .Value "b")])
      "\x7d".data rfl rfl).trans rfl,
   eof_check_per_path.2.2 "u v w".data 18 (.Value "u") " v w".data []
     rfl rfl rfl⟩

/-- C4 counterexample: the claim says the decoded character of a backslash
escape in a bare token is included at that position; on the bare token
`a\nb` (chars `a`, backslash, `n`, `b`) the escape decodes to a newline but
the token text is `ab` — the decoded character is missing. -/
theorem bare_escape_char_dropped :
    parse_string "a\\nb".data = (.ok "ab", []) ∧
    ("ab" : String) ≠ "a\nb" :=
  ⟨rfl, by decide⟩

/-- C4 amended: when reading a bare token, a backslash escape is consumed
and validated by the escape decoder — an invalid escape aborts with the
decoder's error — but the decoded character is discarded, not included in
the token; reading stops, without consuming the terminator, at whitespace,
a structural character, or end of input. -/
theorem bare_token_reading :
    (∀ (e : Char) (rest : List Char) (c : Char), escape_char e = .ok c →
      parse_bare ('\\' :: e :: rest) = parse_bare rest) ∧
    (∀ (e : Char) (rest : List Char) (err : GonError),
      escape_char e = .error err →
      parse_bare ('\\' :: e :: rest) = (.error err, rest)) ∧
    (∀ (c : Char) (rest : List Char),
      is_structural c = true ∨ is_whitespace c = true →
      parse_bare (c :: rest) = (.ok [], c :: rest)) ∧
    parse_string "x\\t7".data = (.ok "x7", []) := by
  refine ⟨?_, ?_, ?_, rfl⟩
  · intro e rest c h
    rw [parse_bare.eq_3, h]
  · intro e rest err h
    rw [parse_bare.eq_3, h]
  · intro c rest h
    exact parse_bare_stop c rest h

/-- Witness for C4's amended theorem: a valid escape (`\n`) is dropped, an
invalid escape (`\q`) fails, and `{` terminates a bare token unconsumed. -/
theorem bare_token_reading_witness :
    parse_bare ('\\' :: 'n' :: ['b']) = parse_bare ['b'] ∧
    parse_bare ('\\' :: 'q' :: ['b'])
      = (.error (.UnexpectedEscapeCharacter 'q'), ['b']) ∧
    parse_bare ('{' :: ['z']) = (.ok [], '{' :: ['z']) :=
  ⟨bare_token_reading.1 'n' ['b'] '\n' rfl,
   bare_token_reading.2.1 'q' ['b'] (.UnexpectedEscapeCharacter 'q') rfl,
   bare_token_reading.2.2.1 '{' ['z'] (Or.inl rfl)⟩

/-- C6: inside any object (top-level implicit, braced, or nested), a key
equal to one already in the accumulated map makes the parse fail with
`DuplicateKey` carrying that key — the earlier binding is never overwritten
— and both `{ a 1 a 2 }` and its brace-less equivalent fail that way. -/
theorem duplicate_key_rejection :
    (∀ (fuel : Nat) (l : List Char) (map : List (String × Gon))
      (key : String) (l1 : List Char) (val : Gon) (l2 : List Char),
      l.head? ≠ some '}' → l ≠ [] →
      parse_string l = (.ok key, l1) →
      parse_val fuel (skip_whitespace_and_token ':' l1).2 = (.ok val, l2) →
      (map.find? (fun kv => kv.1 = key)).isSome = true →
      parse_object (fuel + 1) l map = (.error (.DuplicateKey key), l2)) ∧
    Gon.parse "{ a 1 a 2 }" = .error (.DuplicateKey "a") ∧
    Gon.parse "a 1 a 2" = .error (.DuplicateKey "a") := by
  refine ⟨?_, rfl, rfl⟩
  intro fuel l map key l1 val l2 hhead hnil hs hv hdup
  cases l with
  | nil => exact absurd rfl hnil
  | cons c rest =>
    have hc : ¬c = '}' := by
      intro hc
      subst hc
      exact hhead rfl
    rw [parse_object.eq_4 (c :: rest) map fuel
      (by intro r heq; injection heq with ha _; exact hc ha)
      (by intro heq; cases heq)]
    rw [hs]
    simp only [hv, hdup, if_true]

/-- Witness for C6's general clause: key `k` is already bound, so the second
`k` is rejected with `DuplicateKey "k"`. -/
theorem duplicate_key_rejection_witness :
    parse_object 2 "k 1".data [("k", .Value "0")]
      = (.error (.DuplicateKey "k"), []) :=
  duplicate_key_rejection.1 1 "k 1".data [("k", .Value "0")] "k" " 1".data
    (.Value "1") [] (by decide) (by decide) rfl rfl rfl

/-- C7: the escape decoder maps the eight named escapes to their characters,
fails on `u` with the distinct `HexEscapesNotSupported`, fails on any other
character with `UnexpectedEscapeCharacter`, and fails at end of input with
`EscapeCharacterExpected`; consequently the quoted string with each of
`\b \f \n \r \t \" \\ \/` decodes to exactly those characters. -/
theorem escape_decoder_spec :
    (∀ rest : List Char,
      parse_escape ('\"' :: rest) = (.ok '\"', rest) ∧
      parse_escape ('\\' :: rest) = (.ok '\\', rest) ∧
      parse_escape ('/' :: rest) = (.ok '/', rest) ∧
      parse_escape ('b' :: rest) = (.ok '\x08', rest) ∧
      parse_escape ('f' :: rest) = (.ok '\x0C', rest) ∧
      parse_escape ('n' :: rest) = (.ok '\n', rest) ∧
      parse_escape ('r' :: rest) = (.ok '\r', rest) ∧
      parse_escape ('t' :: rest) = (.ok '\t', rest) ∧
      parse_escape ('u' :: rest) = (.error .HexEscapesNotSupported, rest)) ∧
    (∀ (c : Char) (rest : List Char),
      c ∉ (['\"', '\\', '/', 'b', 'f', 'n', 'r', 't', 'u'] : List Char) →
      parse_escape (c :: rest)
        = (.error (.UnexpectedEscapeCharacter c), rest)) ∧
    parse_escape [] = (.error .EscapeCharacterExpected, []) ∧
    Gon.parse "\"\\b \\f \\n \\r \\t \\\" \\\\ \\/\""
      = .ok (.Value "\x08 \x0C \n \r \t \" \\ /") := by
  refine ⟨?_, ?_, rfl, rfl⟩
  · intro rest
    exact ⟨rfl, rfl, rfl, rfl, rfl, rfl, rfl, rfl, rfl⟩
  · intro c rest h
    simp only [List.mem_cons, List.not_mem_nil, or_false, not_or] at h
    obtain ⟨h1, h2, h3, h4, h5, h6, h7, h8, h9⟩ := h
    simp only [parse_escape, Prod.mk.injEq, and_true]
    unfold escape_char
    split <;> simp_all

/-- Witness for C7's unrecognized-escape clause at `z`. -/
theorem escape_decoder_spec_witness :
    parse_escape ('z' :: ['w'])
      = (.error (.UnexpectedEscapeCharacter 'z'), ['w']) :=
  escape_decoder_spec.2.1 'z' ['w'] (by decide)

/-- C8: string/token reading fails with `StringExpected` exactly when end of
input is hit at the very first peek; a non-quote character that is an
immediate terminator (whitespace or structural) makes bare-token reading
succeed with the empty string instead. -/
theorem string_expected_iff_empty :
    (∀ l : List Char,
      (parse_string l).1 = .error .StringExpected ↔ l = []) ∧
    (∀ (c : Char) (rest : List Char),
      is_structural c = true ∨ is_whitespace c = true →
      parse_string (c :: rest) = (.ok "", c :: rest)) := by
  constructor
  · intro l
    constructor
    · intro h
      cases l with
      | nil => rfl
      | cons c rest =>
        exfalso
        by_cases hc : c = '\"'
        · subst hc
          rw [parse_string] at h
          rcases hq : parse_quoted rest with ⟨res, r1⟩
          rw [hq] at h
          cases res with
          | ok s => simp at h
          | error e =>
            simp only [Except.error.injEq] at h
            subst h
            rcases parse_quoted_error_shape rest _ r1 hq
              with h1 | h1 | h1 | ⟨d, h1⟩ <;> simp at h1
        · simp only [parse_string, hc] at h
          rcases hb : parse_bare (c :: rest) with ⟨res, r1⟩
          rw [hb] at h
          cases res with
          | ok s => simp at h
          | error e =>
            simp only [Except.error.injEq] at h
            subst h
            rcases parse_bare_error_shape (c :: rest) _ r1 hb
              with h1 | h1 | ⟨d, h1⟩ <;> simp at h1
    · intro h
      subst h
      rfl
  · intro c rest h
    have hc : ¬c = '\"' := by
      rcases h with h | h <;>
        (intro hc; subst hc;
         simp [is_structural, is_whitespace] at h)
    simp only [parse_string, hc]
    rw [parse_bare_stop c rest h]

/-- Witness for C8: `parse_string` on the single terminator `,` returns the
empty token, and the iff instantiated at `[]` and at a nonempty input. -/
theorem string_expected_iff_empty_witness :
    parse_string [','] = (.ok "", [',']) ∧
    ((parse_string []).1 = .error .StringExpected ↔ ([] : List Char) = []) :=
  ⟨string_expected_iff_empty.2 ',' [] (Or.inl rfl),
   string_expected_iff_empty.1 []⟩

/-- C9: converting an `Array` into a fixed-size sequence of length `N`
requires exactly `N` elements — any other length fails with
`InvalidLength` reporting `expected = N` and `found =` the actual length
(length 2 into 3 gives expected=3, found=2) — and with exactly `N` elements
each element is converted in order (the first element error, if any, wins). -/
theorem fixed_array_arity :
    (∀ {α : Type} (f : Gon → Except FromGonError α) (N : Nat)
      (arr : List Gon), arr.length ≠ N →
      fromGon_array f N (.Array arr)
        = .error (.InvalidLength N arr.length)) ∧
    fromGon_array fromGon_string 3 (.Array [.Value "1", .Value "2"])
      = .error (.InvalidLength 3 2) ∧
    (∀ {α : Type} (f : Gon → Except FromGonError α) (N : Nat)
      (arr : List Gon), arr.length = N →
      fromGon_array f N (.Array arr) = arr.mapM f) ∧
    fromGon_array fromGon_string 3
        (.Array [.Value "x", .Value "y", .Value "z"])
      = .ok ["x", "y", "z"] := by
  refine ⟨?_, rfl, ?_, rfl⟩
  · intro α f N arr h
    simp only [fromGon_array]
    rw [if_pos h]
  · intro α f N arr h
    simp only [fromGon_array]
    rw [if_neg (not_not_intro h)]

/-- Witness for C9's general clauses: a 2-element array into length 3 fails
with expected=3, found=2; a 1-element array into length 1 converts its
element. -/
theorem fixed_array_arity_witness :
    fromGon_array fromGon_string 3 (.Array [.Value "a", .Value "b"])
      = .error (.InvalidLength 3 2) ∧
    fromGon_array fromGon_string 1 (.Array [.Value "w"]) = .ok ["w"] :=
  ⟨fixed_array_arity.1 fromGon_string 3 [.Value "a", .Value "b"] (by decide),
   (fixed_array_arity.2.2.1 fromGon_string 1 [.Value "w"] rfl).trans rfl⟩
